import Mathlib

/-!
Verification of the trade-ledger analysis program in `app.py`.

The program ingests multi-sheet spreadsheet exports of brokerage trade
ledgers, normalizes column names and security codes, merges the sheets into
one canonical dataset and computes forensic statistics for one target
security.  The definitions below are a shallow embedding of the functions of
`app.py`; the theorems settle the behavioural claims about them.

Modelling conventions:
* Python strings are modelled as `List Char` (wrapped in `String`),
  whitespace and digit classes restricted to ASCII as used by the data.
* pandas float values are modelled as `Rat`; a missing value (`NaN`) in an
  optional column is `Option.none`.  The float division `0.0 / 0.0`, which
  produces a `NaN` in the source, is modelled as `none`.
* Calendar dates are modelled as day numbers (`Nat`); the relevant structure
  is only their equality and order.
* A spreadsheet cell is `Option String` (`none` = blank cell).
-/

namespace TradeLedger

/-- The ASCII whitespace characters removed by Python `str.strip`. -/
def isSpaceChar (c : Char) : Bool :=
  c == ' ' || c == '\t' || c == '\n' || c == '\r' || c == '\x0b' || c == '\x0c'

/-- Model of Python `str.strip`: remove leading and trailing whitespace. -/
def pyStrip (l : List Char) : List Char :=
  ((l.dropWhile isSpaceChar).reverse.dropWhile isSpaceChar).reverse

/-- Model of Python `str.isdigit` on ASCII text: nonempty and all digits. -/
def isDigits (l : List Char) : Bool :=
  !l.isEmpty && l.all Char.isDigit

/-- Full match against the pattern `\d+\.0+` of `normalize_stock_code`
(app.py line 33): digits, then a dot, then one or more zeros. -/
def fracArtifact (l : List Char) : Bool :=
  isDigits (l.takeWhile (fun c => c != '.')) &&
    match l.dropWhile (fun c => c != '.') with
    | '.' :: zs => !zs.isEmpty && zs.all (fun c => c == '0')
    | _ => false

/-- Model of Python `str.zfill 6` on an unsigned string: left-pad with zeros
to width 6. -/
def zfill6 (l : List Char) : List Char :=
  List.replicate (6 - l.length) '0' ++ l

/-- The fraction-stripping step of `normalize_stock_code` (app.py line 34):
on a fraction artifact, keep the digits before the dot. -/
def stripFrac (t : List Char) : List Char :=
  if fracArtifact t then t.takeWhile (fun c => c != '.') else t

/-- Core of `normalize_stock_code` (app.py lines 28-37) on character lists:
strip whitespace, drop a trailing `.0...` artifact, left-pad digits to six
characters, otherwise return the stripped text. -/
def normCode (l : List Char) : List Char :=
  if isDigits (stripFrac (pyStrip l)) then zfill6 (stripFrac (pyStrip l))
  else stripFrac (pyStrip l)

/-- Model of `normalize_stock_code` of app.py on strings. -/
def normalize_stock_code (s : String) : String :=
  ⟨normCode s.data⟩

/-- pandas `Series.unique`: the distinct values, keeping first occurrences. -/
def pdUnique {α : Type} [DecidableEq α] (l : List α) : List α :=
  l.reverse.dedup.reverse

/-- A merged trade record after the final scalar conversion of
`clean_and_process` (app.py lines 132-144): normalized security code, numeric
quantity (coercion failures already replaced by 0), optional amount, price,
parsed trade date and direction text. -/
structure Rec where
  code : String
  qty : Rat
  amount : Option Rat
  price : Option Rat
  date : Option Nat
  direction : Option String
  deriving DecidableEq

/-- The rows of a table that carry the target security code (app.py line 144
and line 163). -/
def target_df (full : List Rec) (target : String) : List Rec :=
  full.filter (fun r => r.code == target)

/-- Total traded volume in absolute value (app.py line 248). -/
def total_vol (full : List Rec) : Rat :=
  (full.map (fun r => |r.qty|)).sum

/-- Target security traded volume in absolute value (app.py line 249). -/
def target_vol (full : List Rec) (target : String) : Rat :=
  total_vol (target_df full target)

/-- Overall volume share of the target security (app.py line 250). -/
def ratio_vol (full : List Rec) (target : String) : Rat :=
  if 0 < total_vol full then target_vol full target / total_vol full * 100 else 0

/-- The distinct non-missing trade dates of the target (app.py line 258). -/
def targetDates (full : List Rec) (target : String) : List Nat :=
  pdUnique ((target_df full target).filterMap (fun r => r.date))

/-- Reported count of target trading dates (app.py line 259). -/
def days_trade_target (full : List Rec) (target : String) : Nat :=
  (targetDates full target).length

/-- The distinct security codes traded on a date across the whole merged
dataset (app.py lines 262-263; merged codes are plain strings, so the
`dropna` there removes nothing). -/
def dayCodes (full : List Rec) (d : Nat) : List String :=
  pdUnique ((full.filter (fun r => r.date == some d)).map (fun r => r.code))

/-- Day classification of app.py line 264: mixed when more than one distinct
code traded that day. -/
def isMixedDay (full : List Rec) (d : Nat) : Bool :=
  decide (1 < (dayCodes full d).length)

/-- Count of mixed target trading days (app.py lines 261-267). -/
def mixed_days (full : List Rec) (target : String) : Nat :=
  (targetDates full target).countP (fun d => isMixedDay full d)

/-- Count of single target trading days (app.py lines 261-267). -/
def single_days (full : List Rec) (target : String) : Nat :=
  (targetDates full target).countP (fun d => !isMixedDay full d)

/-- Rounding to two decimal places (pandas `.round(2)` of app.py line 170). -/
def round2 (x : Rat) : Rat :=
  (⌊x * 100 + 1 / 2⌋ : Int) / 100

/-- One row of the same-day ratio table of `analyze_same_day`.  The share is
optional because the source computes it by float division, which produces a
`NaN` (modelled `none`) when the total volume of the day is zero. -/
structure SameDayRow where
  date : Nat
  totalVol : Rat
  targetVol : Rat
  share : Option Rat
  deriving DecidableEq

/-- Sum of absolute quantities of the records on a given date. -/
def sumAbsQtyOn (l : List Rec) (d : Nat) : Rat :=
  total_vol (l.filter (fun r => r.date == some d))

/-- Restriction of the merged table to the given dates (app.py lines
154-155); a record with a missing date never matches. -/
def dailyOf (full : List Rec) (dates : List Nat) : List Rec :=
  full.filter (fun r => match r.date with | some d => dates.contains d | none => false)

/-- Model of `analyze_same_day` of app.py (lines 150-172).  The `groupby` keys are the
distinct dates of the restricted table in ascending order; per date the
total and target absolute volumes are summed, and the share column is their
ratio times 100 rounded to two decimals.  When the total volume of a date is
zero the source divides zero by zero, which yields a float `NaN`; that
non-number is modelled as `none`. -/
def analyze_same_day (full : List Rec) (target : String) (dates : List Nat) :
    List SameDayRow :=
  let daily := dailyOf full dates
  (List.insertionSort (· ≤ ·) (pdUnique (daily.filterMap (fun r => r.date)))).map
    fun d =>
      let tot := sumAbsQtyOn daily d
      let tgt := sumAbsQtyOn (target_df daily target) d
      { date := d, totalVol := tot, targetVol := tgt,
        share := if tot = 0 then none else some (round2 (tgt / tot * 100)) }

/-- The provenance notes a price trend can carry (the message strings of
`build_price_trend_df`, app.py lines 183-232, as an enumeration). -/
inductive TrendNote
  | noDateCol
  | noValidDates
  | noUsableRecords
  | noPriceCol
  | noPriceValues
  | tierA (buyOnly : Bool)
  | tierB (buyOnly : Bool)
  deriving DecidableEq

/-- One row of the price trend series. -/
structure TrendRow where
  date : Nat
  avgPrice : Rat
  deriving DecidableEq

/-- The target table together with which of its optional columns exist. -/
structure TrendInput where
  hasDate : Bool
  hasDirection : Bool
  hasAmount : Bool
  hasPrice : Bool
  rows : List Rec

/-- The buy test of app.py line 195: the direction text holds the character
for buy.  (`astype(str)` maps a missing value to text without it.) -/
def isBuyRec (r : Rec) : Bool :=
  match r.direction with
  | some s => s.data.contains '买'
  | none => false

/-- Records with a usable date (app.py line 186). -/
def trendW0 (t : TrendInput) : List Rec :=
  t.rows.filter (fun r => r.date.isSome)

/-- Whether the buy restriction of app.py lines 194-198 applies. -/
def trendBuyOnly (t : TrendInput) : Bool :=
  t.hasDirection && (trendW0 t).any isBuyRec

/-- The working record set after the optional buy restriction. -/
def trendW (t : TrendInput) : List Rec :=
  if trendBuyOnly t then (trendW0 t).filter isBuyRec else trendW0 t

/-- Tier A candidates (app.py lines 205-208): amount present and nonzero
absolute quantity.  (The quantity column was already coerced with missing
values replaced by 0, so it always parses.) -/
def tierATemp (t : TrendInput) : List Rec :=
  (trendW t).filter (fun r => r.amount.isSome && decide (0 < |r.qty|))

/-- Tier B candidates (app.py lines 223-224): price present. -/
def tierBTemp (t : TrendInput) : List Rec :=
  (trendW t).filter (fun r => r.price.isSome)

/-- Sum of the present amounts on a given date. -/
def sumAmountOn (l : List Rec) (d : Nat) : Rat :=
  ((l.filter (fun r => r.date == some d)).filterMap (fun r => r.amount)).sum

/-- Sum of the present prices on a given date. -/
def sumPriceOn (l : List Rec) (d : Nat) : Rat :=
  ((l.filter (fun r => r.date == some d)).filterMap (fun r => r.price)).sum

/-- Number of records on a given date. -/
def countOn (l : List Rec) (d : Nat) : Nat :=
  (l.filter (fun r => r.date == some d)).length

/-- The `groupby` keys of the trend computation: distinct dates in ascending
order. -/
def trendDates (l : List Rec) : List Nat :=
  List.insertionSort (· ≤ ·) (pdUnique (l.filterMap (fun r => r.date)))

/-- Tier A rows (app.py lines 210-216): per date, summed amount divided by
summed absolute quantity. -/
def tierARows (temp : List Rec) : List TrendRow :=
  (trendDates temp).map fun d =>
    { date := d, avgPrice := sumAmountOn temp d / sumAbsQtyOn temp d }

/-- Tier B rows (app.py lines 229-231): per date, arithmetic mean of the
price. -/
def tierBRows (temp : List Rec) : List TrendRow :=
  (trendDates temp).map fun d =>
    { date := d, avgPrice := sumPriceOn temp d / (countOn temp d : Rat) }

/-- The price fallback of `build_price_trend_df` (app.py lines 219-232). -/
def tierBPath (t : TrendInput) : List TrendRow × TrendNote :=
  if !t.hasPrice then ([], .noPriceCol)
  else if (tierBTemp t).isEmpty then ([], .noPriceValues)
  else (tierBRows (tierBTemp t), .tierB (trendBuyOnly t))

/-- Model of `build_price_trend_df` of app.py (lines 176-232). -/
def build_price_trend_df (t : TrendInput) : List TrendRow × TrendNote :=
  if !t.hasDate then ([], .noDateCol)
  else if (trendW0 t).isEmpty then ([], .noValidDates)
  else if (trendW t).isEmpty then ([], .noUsableRecords)
  else if t.hasAmount && (trendW t).any (fun r => r.amount.isSome) then
    if !(tierATemp t).isEmpty then (tierARows (tierATemp t), .tierA (trendBuyOnly t))
    else tierBPath t
  else tierBPath t

/-- A spreadsheet cell; `none` models a blank (missing) value. -/
abbrev Cell := Option String

/-- A raw spreadsheet row. -/
abbrev SheetRow := List Cell

/-- A raw sheet: the rows in document order, header offset unknown. -/
abbrev Sheet := List SheetRow

/-- Column-name cleaning of `smart_rename_columns` (app.py line 46): strip,
then remove every newline and space. -/
def cleanColName (s : String) : String :=
  ⟨(pyStrip s.data).filter (fun c => c != '\n' && c != ' ')⟩

/-- The synonym dictionary of `smart_rename_columns` (app.py lines 49-56),
in insertion order. -/
def synonymTable : List (String × List String) :=
  [("证券代码", ["证券代码", "代码", "证券ID", "股票代码", "证券代号"]),
   ("成交数量", ["成交数量", "成交量", "数量", "发生数量", "股数", "成交股数"]),
   ("成交金额", ["成交金额", "金额", "发生金额", "清算金额"]),
   ("成交价格", ["成交价格", "价格", "成交均价", "成交单价"]),
   ("交易日期", ["交易日期", "成交日期", "日期", "发生日期", "业务日期"]),
   ("买卖方向", ["买卖方向", "交易方向", "委托方向", "方向", "买卖标志"])]

/-- The first canonical name whose variant list holds the cleaned column
name; an unmatched name passes through unchanged (app.py lines 59-67). -/
def canonName (c : String) : String :=
  match synonymTable.find? (fun kv => kv.2.contains c) with
  | some kv => kv.1
  | none => c

/-- The canonical column names visible when a row is used as the header; a
blank header cell resolves to no canonical name. -/
def headerNames (row : SheetRow) : List String :=
  row.map (fun c => canonName (cleanColName (c.getD "")))

/-- The key-column check of app.py line 100: both the security-code and the
trade-quantity canonical columns are present. -/
def headerOk (row : SheetRow) : Bool :=
  (headerNames row).contains "证券代码" && (headerNames row).contains "成交数量"

/-- Whether reading the sheet with header offset `k` passes the check. -/
def offsetOk (sheet : Sheet) (k : Nat) : Bool :=
  match sheet[k]? with
  | some row => headerOk row
  | none => false

/-- Header hunting of app.py lines 93-113: the first offset in 0..4 whose
row passes the key-column check. -/
def findHeaderOffset (sheet : Sheet) : Option Nat :=
  [0, 1, 2, 3, 4].find? (offsetOk sheet)

/-- Index of the first header cell resolving to the given canonical name. -/
def colIdx (hdr : SheetRow) (canon : String) : Option Nat :=
  (headerNames hdr).findIdx? (fun h => h == canon)

/-- The cell of a row under an optional column index; a short row yields a
missing value. -/
def getCell (r : SheetRow) (i : Option Nat) : Cell :=
  match i with
  | some j => (r[j]?).getD none
  | none => none

/-- A raw ingested record.  The scalar cells stay textual: the date parse of
app.py line 106 and the numeric coercions of lines 136-142 are not needed by
any property below, only the code column is inspected. -/
structure IngestRec where
  code : String
  qty : Cell
  amount : Cell
  price : Cell
  date : Cell
  direction : Cell
  deriving DecidableEq

/-- One data row of a matched sheet.  A row whose security-code cell is
missing is dropped (the `dropna` of app.py line 102). -/
def rowToRec (hdr : SheetRow) (r : SheetRow) : Option IngestRec :=
  match getCell r (colIdx hdr "证券代码") with
  | none => none
  | some c =>
    some { code := c,
           qty := getCell r (colIdx hdr "成交数量"),
           amount := getCell r (colIdx hdr "成交金额"),
           price := getCell r (colIdx hdr "成交价格"),
           date := getCell r (colIdx hdr "交易日期"),
           direction := getCell r (colIdx hdr "买卖方向") }

/-- The records a sheet contributes once its header offset was found. -/
def extractRecords (sheet : Sheet) (k : Nat) : List IngestRec :=
  match sheet[k]? with
  | some hdr => (sheet.drop (k + 1)).filterMap (rowToRec hdr)
  | none => []

/-- Per-sheet diagnostic (app.py lines 110 and 121): matched with the used
offset, or unmatched with the columns visible at offset 0 (`none` when the
sheet had nothing readable there). -/
inductive Diag
  | matched (offset : Nat)
  | unmatched (cols : Option (List String))
  deriving DecidableEq

/-- The column names visible at offset 0, recorded by an unmatched
diagnostic (app.py lines 116-121). -/
def observedCols (sheet : Sheet) : Option (List String) :=
  (sheet[0]?).map (fun row => row.map (fun c => c.getD ""))

/-- Processing of one sheet: its diagnostic, and its record batch when some
offset matched. -/
def processSheet (sheet : Sheet) : Diag × Option (List IngestRec) :=
  match findHeaderOffset sheet with
  | some k => (.matched k, some (extractRecords sheet k))
  | none => (.unmatched (observedCols sheet), none)

/-- The ordered diagnostic list, one entry per sheet (app.py `debug_info`). -/
def sheetDiags (sheets : List Sheet) : List Diag :=
  sheets.map (fun s => (processSheet s).1)

/-- The ordered record batches of the matched sheets (app.py `all_data`). -/
def sheetBatches (sheets : List Sheet) : List (List IngestRec) :=
  sheets.filterMap (fun s => (processSheet s).2)

/-- The final code normalization of the merge step (app.py line 135). -/
def finalizeRec (r : IngestRec) : IngestRec :=
  { r with code := normalize_stock_code r.code }

/-- Model of `clean_and_process` of app.py (lines 89-146) after the target code was
accepted and the workbook opened: either the merged record list, or the
diagnostic report of lines 128-130 when no sheet matched. -/
def clean_and_process (sheets : List Sheet) : Except (List Diag) (List IngestRec) :=
  if (sheetBatches sheets).isEmpty then .error (sheetDiags sheets)
  else .ok ((sheetBatches sheets).flatten.map finalizeRec)

/-! ### Helper lemmas about stripping and digit strings -/

theorem dropWhile_dropWhile {α : Type} (p : α → Bool) (l : List α) :
    (l.dropWhile p).dropWhile p = l.dropWhile p := by
  induction l with
  | nil => rfl
  | cons a m ih =>
    by_cases h : p a
    · simp [List.dropWhile_cons, h, ih]
    · simp [List.dropWhile_cons, h]

theorem head?_dropWhile_false {α : Type} (p : α → Bool) (l : List α) (x : α)
    (h : (l.dropWhile p).head? = some x) : p x = false := by
  induction l with
  | nil => simp at h
  | cons a m ih =>
    by_cases hp : p a
    · rw [List.dropWhile_cons_of_pos hp] at h
      exact ih h
    · rw [List.dropWhile_cons_of_neg hp] at h
      simp only [List.head?_cons, Option.some.injEq] at h
      subst h
      exact Bool.eq_false_iff.mpr hp

theorem getLast?_dropWhile {α : Type} (p : α → Bool) (l : List α)
    (h : l.dropWhile p ≠ []) : (l.dropWhile p).getLast? = l.getLast? := by
  induction l with
  | nil => simp at h
  | cons a m ih =>
    by_cases hp : p a
    · rw [List.dropWhile_cons_of_pos hp] at h ⊢
      have hm : m ≠ [] := by
        intro hnil
        rw [hnil] at h
        simp at h
      obtain ⟨b, m', rfl⟩ := List.exists_cons_of_ne_nil hm
      rw [ih h, List.getLast?_cons_cons]
    · rw [List.dropWhile_cons_of_neg hp]

theorem pyStrip_head (l : List Char) (x : Char)
    (h : (pyStrip l).head? = some x) : isSpaceChar x = false := by
  unfold pyStrip at h
  rw [List.head?_reverse] at h
  by_cases hn : ((l.dropWhile isSpaceChar).reverse).dropWhile isSpaceChar = []
  · rw [hn] at h
    simp at h
  · rw [getLast?_dropWhile _ _ hn, List.getLast?_reverse] at h
    exact head?_dropWhile_false _ _ _ h

theorem pyStrip_getLast (l : List Char) (x : Char)
    (h : (pyStrip l).getLast? = some x) : isSpaceChar x = false := by
  unfold pyStrip at h
  rw [List.getLast?_reverse] at h
  exact head?_dropWhile_false _ _ _ h

theorem pyStrip_eq_self (l : List Char)
    (h1 : ∀ x, l.head? = some x → isSpaceChar x = false)
    (h2 : ∀ x, l.getLast? = some x → isSpaceChar x = false) :
    pyStrip l = l := by
  cases l with
  | nil => rfl
  | cons a m =>
    have ha : isSpaceChar a = false := h1 a rfl
    have hstep1 : (a :: m).dropWhile isSpaceChar = a :: m :=
      List.dropWhile_cons_of_neg (by simp [ha])
    have hstep2 : ((a :: m).reverse).dropWhile isSpaceChar = (a :: m).reverse := by
      cases hrev : (a :: m).reverse with
      | nil =>
        exact absurd (List.reverse_eq_nil_iff.mp hrev) (List.cons_ne_nil a m)
      | cons b bs =>
        have hb : (a :: m).getLast? = some b := by
          rw [← List.head?_reverse, hrev]
          rfl
        exact List.dropWhile_cons_of_neg (by simp [h2 b hb])
    unfold pyStrip
    rw [hstep1, hstep2, List.reverse_reverse]

theorem pyStrip_idem (l : List Char) : pyStrip (pyStrip l) = pyStrip l :=
  pyStrip_eq_self (pyStrip l) (pyStrip_head l) (pyStrip_getLast l)

theorem pyStrip_of_no_space (l : List Char)
    (h : ∀ c ∈ l, isSpaceChar c = false) : pyStrip l = l :=
  pyStrip_eq_self l
    (fun x hx => h x (List.mem_of_mem_head? (Option.mem_def.mpr hx)))
    (fun x hx => h x (List.mem_of_getLast?_eq_some hx))

theorem digit_not_space (c : Char) (h : c.isDigit = true) :
    isSpaceChar c = false := by
  by_contra hc
  rw [Bool.not_eq_false] at hc
  simp only [isSpaceChar, Bool.or_eq_true, beq_iff_eq] at hc
  rcases hc with ((((rfl | rfl) | rfl) | rfl) | rfl) | rfl <;>
    exact absurd h (by decide)

theorem digit_not_dot (c : Char) (h : c.isDigit = true) : (c != '.') = true := by
  by_contra hc
  rw [Bool.not_eq_true, bne_eq_false_iff_eq] at hc
  subst hc
  exact absurd h (by decide)

theorem zfill6_all_digits (l : List Char) (h : l.all Char.isDigit = true) :
    (zfill6 l).all Char.isDigit = true := by
  unfold zfill6
  rw [List.all_append, h, Bool.and_true, List.all_eq_true]
  intro c hc
  rw [List.eq_of_mem_replicate hc]
  decide

theorem zfill6_length (l : List Char) : 6 ≤ (zfill6 l).length := by
  unfold zfill6
  rw [List.length_append, List.length_replicate]
  omega

theorem zfill6_of_ge (l : List Char) (h : 6 ≤ l.length) : zfill6 l = l := by
  unfold zfill6
  rw [Nat.sub_eq_zero_of_le h]
  rfl

theorem isDigits_zfill6 (l : List Char) (h : isDigits l = true) :
    isDigits (zfill6 l) = true := by
  unfold isDigits at h ⊢
  rw [Bool.and_eq_true] at h
  rw [Bool.and_eq_true]
  refine ⟨?_, zfill6_all_digits l h.2⟩
  have := zfill6_length l
  cases hz : zfill6 l with
  | nil => rw [hz] at this; simp at this
  | cons a m => rfl

theorem fracArtifact_of_all_digits (l : List Char) (h : l.all Char.isDigit = true) :
    fracArtifact l = false := by
  unfold fracArtifact
  have hdrop : l.dropWhile (fun c => c != '.') = [] := by
    rw [List.dropWhile_eq_nil_iff]
    intro x hx
    exact digit_not_dot x (List.all_eq_true.mp h x hx)
  rw [hdrop]
  simp

/-- After one pass of `normCode`, the result is either a zero-filled digit
string or the stripped input with neither the fraction artifact nor the
digit shape. -/
theorem fracArtifact_digits (t : List Char) (hf : fracArtifact t = true) :
    isDigits (t.takeWhile (fun c => c != '.')) = true := by
  unfold fracArtifact at hf
  rw [Bool.and_eq_true] at hf
  exact hf.1

theorem isDigits_all (l : List Char) (h : isDigits l = true) :
    l.all Char.isDigit = true := by
  unfold isDigits at h
  rw [Bool.and_eq_true] at h
  exact h.2

theorem normCode_cases (l : List Char) :
    (∃ m, normCode l = zfill6 m ∧ isDigits m = true) ∨
      (normCode l = pyStrip l ∧ fracArtifact (pyStrip l) = false ∧
        isDigits (pyStrip l) = false) := by
  by_cases hf : fracArtifact (pyStrip l) = true
  · have hd := fracArtifact_digits (pyStrip l) hf
    left
    exact ⟨(pyStrip l).takeWhile (fun c => c != '.'),
      by simp [normCode, stripFrac, hf, hd], hd⟩
  · rw [Bool.not_eq_true] at hf
    by_cases hd : isDigits (pyStrip l) = true
    · left
      exact ⟨pyStrip l, by simp [normCode, stripFrac, hf, hd], hd⟩
    · rw [Bool.not_eq_true] at hd
      right
      exact ⟨by simp [normCode, stripFrac, hf, hd], hf, hd⟩

theorem normCode_of_digits (m : List Char) (hm : isDigits m = true)
    (hl : 6 ≤ m.length) : normCode m = m := by
  have hall : m.all Char.isDigit = true := isDigits_all m hm
  have hstrip : pyStrip m = m :=
    pyStrip_of_no_space m
      (fun c hc => digit_not_space c (List.all_eq_true.mp hall c hc))
  have hfrac : fracArtifact m = false := fracArtifact_of_all_digits m hall
  unfold normCode stripFrac
  rw [hstrip, hfrac]
  simp only [Bool.false_eq_true, if_false, hm, if_true]
  exact zfill6_of_ge m hl

theorem normCode_of_plain (m : List Char) (hs : pyStrip m = m)
    (hf : fracArtifact m = false) (hd : isDigits m = false) :
    normCode m = m := by
  unfold normCode stripFrac
  rw [hs, hf]
  simp [hd]

theorem normCode_idem (l : List Char) : normCode (normCode l) = normCode l := by
  rcases normCode_cases l with ⟨m, hm, hdig⟩ | ⟨h1, h2, h3⟩
  · rw [hm]
    exact normCode_of_digits (zfill6 m) (isDigits_zfill6 m hdig) (zfill6_length m)
  · rw [h1]
    exact normCode_of_plain (pyStrip l) (pyStrip_idem l) h2 h3

/-! ### Claim 6: behaviour of the code normalizer -/

/-- Claim C6: `normalize_stock_code` trims surrounding whitespace, strips a
trailing `.0…` fractional artifact from an integer value, left-pads an
all-digit result with zeros to the fixed width 6, and otherwise returns the
trimmed text unchanged; in particular `"600519.0"` maps to `"600519"` and
`" 2776 "` maps to `"002776"`. -/
theorem c6_normalize_stock_code_spec :
    normalize_stock_code "600519.0" = "600519" ∧
    normalize_stock_code " 2776 " = "002776" ∧
    (∀ s : String, fracArtifact (pyStrip s.data) = true →
      normCode s.data = zfill6 ((pyStrip s.data).takeWhile (fun c => c != '.'))) ∧
    (∀ s : String, fracArtifact (pyStrip s.data) = false →
      isDigits (pyStrip s.data) = true → normCode s.data = zfill6 (pyStrip s.data)) ∧
    (∀ s : String, fracArtifact (pyStrip s.data) = false →
      isDigits (pyStrip s.data) = false → normalize_stock_code s = ⟨pyStrip s.data⟩) := by
  refine ⟨by decide, by decide, ?_, ?_, ?_⟩
  · intro s hf
    have hd := fracArtifact_digits (pyStrip s.data) hf
    simp [normCode, stripFrac, hf, hd]
  · intro s hf hd
    simp [normCode, stripFrac, hf, hd]
  · intro s hf hd
    simp [normalize_stock_code, normCode, stripFrac, hf, hd]

/-- Witness for C6 at concrete inputs. -/
theorem c6_normalize_stock_code_spec_witness :
    normCode " 2776 ".data = zfill6 (pyStrip " 2776 ".data) ∧
    normCode "600519.0".data =
      zfill6 ((pyStrip "600519.0".data).takeWhile (fun c => c != '.')) ∧
    normalize_stock_code " ab c " = ⟨pyStrip " ab c ".data⟩ :=
  ⟨c6_normalize_stock_code_spec.2.2.2.1 " 2776 " (by decide) (by decide),
   c6_normalize_stock_code_spec.2.2.1 "600519.0" (by decide),
   c6_normalize_stock_code_spec.2.2.2.2 " ab c " (by decide) (by decide)⟩

/-! ### Claim 7: idempotence of the code normalizer -/

/-- Claim C7: `normalize_stock_code` is idempotent: applying it twice gives
the same result as applying it once, for every input string. -/
theorem c7_normalize_stock_code_idem (s : String) :
    normalize_stock_code (normalize_stock_code s) = normalize_stock_code s := by
  unfold normalize_stock_code
  exact congrArg String.mk (normCode_idem s.data)

/-! ### Helper lemmas about `pdUnique` and counting -/

theorem pdUnique_nodup {α : Type} [DecidableEq α] (l : List α) :
    (pdUnique l).Nodup := by
  unfold pdUnique
  exact List.nodup_reverse.mpr (List.nodup_dedup l.reverse)

theorem pdUnique_mem {α : Type} [DecidableEq α] (l : List α) (a : α) :
    a ∈ pdUnique l ↔ a ∈ l := by
  unfold pdUnique
  rw [List.mem_reverse, List.mem_dedup, List.mem_reverse]

theorem pdUnique_length_card {α : Type} [DecidableEq α] (l : List α) :
    (pdUnique l).length = l.toFinset.card := by
  unfold pdUnique
  rw [List.length_reverse, ← List.toFinset_reverse, Finset.card_def,
    List.toFinset_val, Multiset.coe_card]

theorem countP_partition {α : Type} (p : α → Bool) (l : List α) :
    l.countP p + l.countP (fun a => !p a) = l.length := by
  induction l with
  | nil => rfl
  | cons a m ih =>
    by_cases h : p a <;> simp [List.countP_cons, h] <;> omega

/-! ### Claim 3: mixed and single day classification -/

/-- The claim's first example dataset: two records with different codes on
the same day. -/
def exMixedData : List Rec :=
  [{ code := "002776", qty := 100, amount := none, price := none,
     date := some 1, direction := none },
   { code := "000001", qty := 200, amount := none, price := none,
     date := some 1, direction := none }]

/-- The claim's second example dataset: a single target record on one day. -/
def exSingleData : List Rec :=
  [{ code := "002776", qty := 50, amount := none, price := none,
     date := some 1, direction := none }]

/-- Claim C3: for every distinct non-missing date on which the target
traded, the day is classified mixed exactly when the set of distinct codes
traded that date across the whole merged dataset has size greater than one,
and single otherwise; only target trading dates are classified (the two
counters range over `targetDates` alone).  On the two-code example day 1 is
mixed; on the single-record example day 1 is single, with mixed count 0 and
single count 1. -/
theorem c3_mixed_single_classification (full : List Rec) (target : String) :
    (∀ d ∈ targetDates full target,
      (isMixedDay full d = true ↔
        1 < ((full.filter (fun r => r.date == some d)).map
          (fun r => r.code)).toFinset.card)) ∧
    mixed_days full target =
      ((targetDates full target).filter (fun d => isMixedDay full d)).length ∧
    single_days full target =
      ((targetDates full target).filter (fun d => !isMixedDay full d)).length ∧
    isMixedDay exMixedData 1 = true ∧
    mixed_days exMixedData "002776" = 1 ∧
    isMixedDay exSingleData 1 = false ∧
    mixed_days exSingleData "002776" = 0 ∧
    single_days exSingleData "002776" = 1 := by
  refine ⟨?_, ?_, ?_, by decide, by decide, by decide, by decide, by decide⟩
  · intro d _
    unfold isMixedDay dayCodes
    rw [decide_eq_true_iff, pdUnique_length_card]
  · unfold mixed_days
    rw [List.countP_eq_length_filter]
  · unfold single_days
    rw [List.countP_eq_length_filter]

/-- Witness for C3: the classification criterion applied on the two-code
example at its traded date. -/
theorem c3_mixed_single_classification_witness :
    isMixedDay exMixedData 1 = true ↔
      1 < ((exMixedData.filter (fun r => r.date == some 1)).map
        (fun r => r.code)).toFinset.card :=
  (c3_mixed_single_classification exMixedData "002776").1 1 (by decide)

/-! ### Claim 10: the classification is a partition -/

/-- Claim C10: every distinct non-missing target trading date is classified
exactly once, so the mixed-day count plus the single-day count equals the
reported number of target trading dates. -/
theorem c10_classification_partition (full : List Rec) (target : String) :
    mixed_days full target + single_days full target =
      days_trade_target full target := by
  unfold mixed_days single_days days_trade_target
  exact countP_partition (fun d => isMixedDay full d) (targetDates full target)

/-! ### Claim 4: overall volume share -/

theorem total_vol_nonneg (full : List Rec) : 0 ≤ total_vol full := by
  unfold total_vol
  apply List.sum_nonneg
  intro x hx
  obtain ⟨r, _, rfl⟩ := List.mem_map.mp hx
  exact abs_nonneg _

/-- Claim C4: the overall volume share is the sum of absolute quantities of
the target records over the sum of absolute quantities of all records times
100, defined as 0 when the denominator is 0; quantities enter by absolute
value, so a sell of -100 adds 100 to both sums. -/
theorem c4_overall_volume_share (full : List Rec) (target : String)
    (r : Rec) (l : List Rec) :
    (total_vol full = 0 → ratio_vol full target = 0) ∧
    (total_vol full ≠ 0 →
      ratio_vol full target = target_vol full target / total_vol full * 100) ∧
    target_vol full target = total_vol (full.filter (fun x => x.code == target)) ∧
    (r.qty = -100 → total_vol (r :: l) = 100 + total_vol l ∧
      (r.code = target → target_vol (r :: l) target = 100 + target_vol l target)) := by
  refine ⟨?_, ?_, rfl, ?_⟩
  · intro h
    unfold ratio_vol
    rw [h]
    simp
  · intro h
    have hpos : 0 < total_vol full :=
      lt_of_le_of_ne (total_vol_nonneg full) (Ne.symm h)
    unfold ratio_vol
    rw [if_pos hpos]
  · intro hq
    have habs : |r.qty| = 100 := by
      rw [hq]
      norm_num
    constructor
    · unfold total_vol
      simp [habs]
    · intro hc
      unfold target_vol target_df
      rw [List.filter_cons]
      simp only [hc, beq_self_eq_true, if_true]
      unfold total_vol
      simp [habs]

/-- The sell record of the C4 witness. -/
def c4rec : Rec :=
  { code := "002776", qty := -100, amount := none, price := none,
    date := some 1, direction := none }

/-- Witness for C4: on a one-record dataset holding a sell of 100 shares the
guarded formula and the absolute-value accounting are realized. -/
theorem c4_overall_volume_share_witness :
    ratio_vol [c4rec] "002776" =
      target_vol [c4rec] "002776" / total_vol [c4rec] * 100 ∧
    total_vol (c4rec :: []) = 100 + total_vol [] ∧
    target_vol (c4rec :: []) "002776" = 100 + target_vol [] "002776" := by
  have h := c4_overall_volume_share [c4rec] "002776" c4rec []
  have hne : total_vol [c4rec] ≠ 0 := by
    have : total_vol [c4rec] = 100 := by with_unfolding_all rfl
    rw [this]
    norm_num
  exact ⟨h.2.1 hne, (h.2.2.2 rfl).1, (h.2.2.2 rfl).2 rfl⟩

/-! ### Claim 1: the same-day ratio table -/

/-- Counterexample data for C1: the target trades once with quantity 0 (a
quantity whose numeric coercion failed is stored as 0 by the merger), so its
trading day has total absolute volume 0. -/
def c1CexData : List Rec :=
  [{ code := "002776", qty := 0, amount := none, price := none,
     date := some 1, direction := none }]

/-- Counterexample for C1 as stated: on a date whose total absolute volume
is 0, `analyze_same_day` does not report a share of 0 — the source divides
zero by zero, producing the float non-number (modelled `none`), so the
claimed value `some 0` is refuted at this concrete input. -/
theorem c1_same_day_counterexample :
    analyze_same_day c1CexData "002776" [1] =
      [{ date := 1, totalVol := 0, targetVol := 0, share := none }] ∧
    ¬ (∀ row ∈ analyze_same_day c1CexData "002776" [1],
        row.totalVol = 0 → row.share = some 0) := by
  have heq : analyze_same_day c1CexData "002776" [1] =
      [{ date := 1, totalVol := 0, targetVol := 0, share := none }] := by
    with_unfolding_all rfl
  refine ⟨heq, ?_⟩
  intro hall
  have hmem : ({ date := 1, totalVol := 0, targetVol := 0, share := none } :
      SameDayRow) ∈ analyze_same_day c1CexData "002776" [1] := by
    rw [heq]
    exact List.mem_singleton_self _
  have := hall _ hmem rfl
  simp at this

/-- Claim C1 (amended): in the same-day table, every row carries the total
and target absolute volume sums of its date; the share equals
`target/total*100` rounded to two decimals whenever the total is nonzero,
while a date with total absolute volume 0 yields an undefined (`NaN`,
modelled `none`) share rather than 0; and the rows are sorted by date in
strictly ascending order. -/
theorem c1_same_day_table (full : List Rec) (target : String) (dates : List Nat) :
    (∀ row ∈ analyze_same_day full target dates,
      row.totalVol = sumAbsQtyOn (dailyOf full dates) row.date ∧
      row.targetVol = sumAbsQtyOn (target_df (dailyOf full dates) target) row.date ∧
      (row.totalVol ≠ 0 →
        row.share = some (round2 (row.targetVol / row.totalVol * 100))) ∧
      (row.totalVol = 0 → row.share = none)) ∧
    List.Pairwise (fun a b => a.date < b.date) (analyze_same_day full target dates) := by
  constructor
  · intro row hrow
    simp only [analyze_same_day, List.mem_map] at hrow
    obtain ⟨d, _, rfl⟩ := hrow
    refine ⟨rfl, rfl, ?_, ?_⟩
    · intro hne
      have h0 : sumAbsQtyOn (dailyOf full dates) d ≠ 0 := hne
      show (if sumAbsQtyOn (dailyOf full dates) d = 0 then none
        else some (round2 (sumAbsQtyOn (target_df (dailyOf full dates) target) d /
          sumAbsQtyOn (dailyOf full dates) d * 100))) = _
      rw [if_neg h0]
    · intro hz
      have h0 : sumAbsQtyOn (dailyOf full dates) d = 0 := hz
      show (if sumAbsQtyOn (dailyOf full dates) d = 0 then none
        else some (round2 (sumAbsQtyOn (target_df (dailyOf full dates) target) d /
          sumAbsQtyOn (dailyOf full dates) d * 100))) = none
      rw [if_pos h0]
  · have hs : List.Sorted (· ≤ ·) (List.insertionSort (· ≤ ·)
        (pdUnique ((dailyOf full dates).filterMap (fun r => r.date)))) :=
      List.sorted_insertionSort _ _
    have hn : (List.insertionSort (· ≤ ·)
        (pdUnique ((dailyOf full dates).filterMap (fun r => r.date)))).Nodup :=
      (List.perm_insertionSort _ _).nodup_iff.mpr (pdUnique_nodup _)
    have hlt := (List.Pairwise.and hs hn).imp
      (fun h => lt_of_le_of_ne h.1 h.2)
    simp only [analyze_same_day]
    rw [List.pairwise_map]
    exact hlt

/-- Witness data for C1: one target record of 100 shares on day 1. -/
def c1WitData : List Rec :=
  [{ code := "002776", qty := 100, amount := none, price := none,
     date := some 1, direction := none }]

/-- Witness for C1: the share formula realized on the witness dataset. -/
theorem c1_same_day_table_witness :
    ({ date := 1, totalVol := 100, targetVol := 100, share := some 100 } :
      SameDayRow).share = some (round2 (100 / 100 * 100)) := by
  have heq : analyze_same_day c1WitData "002776" [1] =
      [{ date := 1, totalVol := 100, targetVol := 100, share := some 100 }] := by
    with_unfolding_all rfl
  have hmem : ({ date := 1, totalVol := 100, targetVol := 100, share := some 100 } :
      SameDayRow) ∈ analyze_same_day c1WitData "002776" [1] := by
    rw [heq]
    exact List.mem_singleton_self _
  have h := ((c1_same_day_table c1WitData "002776" [1]).1 _ hmem).2.2.1
    (by norm_num)
  exact h

/-! ### Claim 2: the two-tier price trend -/

theorem isEmpty_false_of_ne {α : Type} (l : List α) (h : l ≠ []) :
    l.isEmpty = false :=
  Bool.eq_false_iff.mpr (fun hc => h (List.isEmpty_iff.mp hc))

theorem trendW_ne_nil (t : TrendInput) (hw : trendW0 t ≠ []) : trendW t ≠ [] := by
  unfold trendW
  by_cases hb : trendBuyOnly t = true
  · rw [if_pos hb]
    have hany : (trendW0 t).any isBuyRec = true := by
      unfold trendBuyOnly at hb
      rw [Bool.and_eq_true] at hb
      exact hb.2
    obtain ⟨r, hr, hbr⟩ := List.any_eq_true.mp hany
    exact List.ne_nil_of_mem (List.mem_filter.mpr ⟨hr, hbr⟩)
  · rw [if_neg hb]
    exact hw

theorem tierATemp_nil_of_no_amount (t : TrendInput)
    (h : (trendW t).any (fun r => r.amount.isSome) = false) :
    tierATemp t = [] := by
  unfold tierATemp
  rw [List.filter_eq_nil_iff]
  intro r hr
  have := List.any_eq_false.mp h r hr
  simp [this]

theorem build_eq_tierA (t : TrendInput) (hd : t.hasDate = true)
    (hw : trendW0 t ≠ []) (ha : t.hasAmount = true)
    (hany : (trendW t).any (fun r => r.amount.isSome) = true)
    (htemp : tierATemp t ≠ []) :
    build_price_trend_df t =
      (tierARows (tierATemp t), TrendNote.tierA (trendBuyOnly t)) := by
  simp [build_price_trend_df, hd, isEmpty_false_of_ne _ hw,
    isEmpty_false_of_ne _ (trendW_ne_nil t hw), ha, hany,
    isEmpty_false_of_ne _ htemp]

theorem build_eq_tierBPath (t : TrendInput) (hd : t.hasDate = true)
    (hw : trendW0 t ≠ []) (hA : t.hasAmount = false ∨ tierATemp t = []) :
    build_price_trend_df t = tierBPath t := by
  rcases hA with hA | hA
  · simp [build_price_trend_df, hd, isEmpty_false_of_ne _ hw,
      isEmpty_false_of_ne _ (trendW_ne_nil t hw), hA]
  · by_cases hany : (trendW t).any (fun r => r.amount.isSome) = true
    · simp [build_price_trend_df, hd, isEmpty_false_of_ne _ hw,
        isEmpty_false_of_ne _ (trendW_ne_nil t hw), hany, hA]
    · rw [Bool.not_eq_true] at hany
      simp [build_price_trend_df, hd, isEmpty_false_of_ne _ hw,
        isEmpty_false_of_ne _ (trendW_ne_nil t hw), hany]

theorem tierARows_avg (temp : List Rec) :
    ∀ row ∈ tierARows temp,
      row.avgPrice = sumAmountOn temp row.date / sumAbsQtyOn temp row.date := by
  intro row hrow
  simp only [tierARows, List.mem_map] at hrow
  obtain ⟨d, _, rfl⟩ := hrow
  rfl

theorem tierBRows_avg (temp : List Rec) :
    ∀ row ∈ tierBRows temp,
      row.avgPrice = sumPriceOn temp row.date / (countOn temp row.date : Rat) := by
  intro row hrow
  simp only [tierBRows, List.mem_map] at hrow
  obtain ⟨d, _, rfl⟩ := hrow
  rfl

/-- The claim's Tier A example input: amounts 5000 over 100 shares and 3000
over 50 shares on the same day, no price column. -/
def exTierA : TrendInput :=
  { hasDate := true, hasDirection := false, hasAmount := true, hasPrice := false,
    rows := [{ code := "002776", qty := 100, amount := some 5000, price := none,
               date := some 1, direction := none },
             { code := "002776", qty := 50, amount := some 3000, price := none,
               date := some 1, direction := none }] }

/-- The claim's Tier B example input: the amount column is absent and the
prices on the day are 10 and 12. -/
def exTierB : TrendInput :=
  { hasDate := true, hasDirection := false, hasAmount := false, hasPrice := true,
    rows := [{ code := "002776", qty := 100, amount := none, price := some 10,
               date := some 1, direction := none },
             { code := "002776", qty := 50, amount := none, price := some 12,
               date := some 1, direction := none }] }

/-- Claim C2: the price trend uses two tiers in priority order.  Tier A
applies when the amount column is present with at least one non-missing
value and its candidate set (amount parses, nonzero absolute quantity) is
nonempty, and computes `sum(amount)/sum(|quantity|)` per date.  Tier B is
used only when the amount column is absent or Tier A yields no rows, and
computes the arithmetic mean of the parsed prices per date.  When neither
tier yields data the result is the empty series with an explanatory note
(the function is total, so no exception is possible).  On the Tier A
example the trend value is `8000/150`; on the Tier B example it is 11. -/
theorem c2_price_trend (t : TrendInput) (hd : t.hasDate = true)
    (hw : trendW0 t ≠ []) :
    ((t.hasAmount = true → (trendW t).any (fun r => r.amount.isSome) = true →
        tierATemp t ≠ [] →
        build_price_trend_df t =
          (tierARows (tierATemp t), TrendNote.tierA (trendBuyOnly t)) ∧
        ∀ row ∈ tierARows (tierATemp t),
          row.avgPrice = sumAmountOn (tierATemp t) row.date /
            sumAbsQtyOn (tierATemp t) row.date) ∧
      ((t.hasAmount = false ∨ tierATemp t = []) → t.hasPrice = true →
        tierBTemp t ≠ [] →
        build_price_trend_df t =
          (tierBRows (tierBTemp t), TrendNote.tierB (trendBuyOnly t)) ∧
        ∀ row ∈ tierBRows (tierBTemp t),
          row.avgPrice = sumPriceOn (tierBTemp t) row.date /
            (countOn (tierBTemp t) row.date : Rat)) ∧
      ((t.hasAmount = false ∨ tierATemp t = []) →
        (t.hasPrice = false ∨ tierBTemp t = []) →
        (build_price_trend_df t).1 = [] ∧
        ((build_price_trend_df t).2 = TrendNote.noPriceCol ∨
          (build_price_trend_df t).2 = TrendNote.noPriceValues))) ∧
    build_price_trend_df exTierA =
      ([{ date := 1, avgPrice := 8000 / 150 }], TrendNote.tierA false) ∧
    build_price_trend_df exTierB =
      ([{ date := 1, avgPrice := 11 }], TrendNote.tierB false) := by
  refine ⟨⟨?_, ?_, ?_⟩, by with_unfolding_all rfl, by with_unfolding_all rfl⟩
  · intro ha hany htemp
    exact ⟨build_eq_tierA t hd hw ha hany htemp, tierARows_avg _⟩
  · intro hA hp hB
    rw [build_eq_tierBPath t hd hw hA]
    unfold tierBPath
    rw [hp]
    simp [isEmpty_false_of_ne _ hB]
    exact tierBRows_avg _
  · intro hA hB
    rw [build_eq_tierBPath t hd hw hA]
    rcases hB with hB | hB
    · simp [tierBPath, hB]
    · simp [tierBPath, hB]
      by_cases hp : t.hasPrice = true <;> simp [hp]

/-- Witness for C2: the Tier A branch realized on the Tier A example. -/
theorem c2_price_trend_witness :
    build_price_trend_df exTierA =
      (tierARows (tierATemp exTierA), TrendNote.tierA (trendBuyOnly exTierA)) :=
  ((c2_price_trend exTierA rfl (by with_unfolding_all decide)).1.1 rfl
    (by with_unfolding_all decide) (by with_unfolding_all decide)).1

/-! ### Claim 5: header-offset discovery -/

theorem find?_range' (p : Nat → Bool) :
    ∀ (n s k : Nat), ((List.range' s n).find? p = some k ↔
      (s ≤ k ∧ k < s + n ∧ p k = true ∧ ∀ j, s ≤ j → j < k → p j = false)) := by
  intro n
  induction n with
  | zero =>
    intro s k
    simp only [List.range']
    constructor
    · intro h
      simp at h
    · rintro ⟨h1, h2, _, _⟩
      omega
  | succ n ih =>
    intro s k
    rw [List.range'_succ]
    by_cases hs : p s = true
    · rw [List.find?_cons_of_pos _ hs]
      constructor
      · intro h
        injection h with h
        subst h
        exact ⟨Nat.le_refl _, by omega, hs, fun j h1 h2 => by omega⟩
      · rintro ⟨h1, h2, h3, h4⟩
        by_cases hk : k = s
        · rw [hk]
        · have hps := h4 s (Nat.le_refl _) (by omega)
          rw [hs] at hps
          exact absurd hps (by simp)
    · rw [List.find?_cons_of_neg _ hs, ih (s + 1) k]
      constructor
      · rintro ⟨h1, h2, h3, h4⟩
        refine ⟨by omega, by omega, h3, fun j hj1 hj2 => ?_⟩
        by_cases hj : j = s
        · rw [hj]
          exact Bool.eq_false_iff.mpr hs
        · exact h4 j (by omega) hj2
      · rintro ⟨h1, h2, h3, h4⟩
        have hks : k ≠ s := by
          intro hk
          rw [hk] at h3
          exact hs h3
        exact ⟨by omega, by omega, h3, fun j hj1 hj2 => h4 j (by omega) hj2⟩

/-- Claim C5: ingestion attempts header offsets 0 through 4 in increasing
order and stops at the first offset whose row passes the key-column check:
the offset found is below 5, passes the check, and every smaller offset
fails it; conversely any such offset is the one found.  In particular a
sheet failing the check at offsets 0 and 1 and passing at offset 2 is
discovered at offset 2. -/
theorem c5_header_discovery (sheet : Sheet) (k : Nat) :
    (findHeaderOffset sheet = some k ↔
      (k < 5 ∧ offsetOk sheet k = true ∧ ∀ j < k, offsetOk sheet j = false)) ∧
    (offsetOk sheet 0 = false → offsetOk sheet 1 = false →
      offsetOk sheet 2 = true → findHeaderOffset sheet = some 2) := by
  have hrange : ([0, 1, 2, 3, 4] : List Nat) = List.range' 0 5 := rfl
  constructor
  · unfold findHeaderOffset
    rw [hrange, find?_range']
    constructor
    · rintro ⟨_, h2, h3, h4⟩
      exact ⟨by omega, h3, fun j hj => h4 j (by omega) hj⟩
    · rintro ⟨h1, h2, h3⟩
      exact ⟨by omega, by omega, h2, fun j _ hj => h3 j hj⟩
  · intro h0 h1 h2
    unfold findHeaderOffset
    rw [hrange, find?_range']
    refine ⟨by omega, by omega, h2, ?_⟩
    intro j hj1 hj2
    interval_cases j
    · exact h0
    · exact h1

/-- Witness sheet for C5: the real header sits on row index 2, below two
junk rows. -/
def exSheet5 : Sheet :=
  [[some "说明", none],
   [some "junk", some "x"],
   [some "证券代码", some "成交数量"],
   [some "002776", some "100"]]

/-- Witness for C5: offset 2 is discovered on the witness sheet while
offsets 0 and 1 fail the check. -/
theorem c5_header_discovery_witness :
    findHeaderOffset exSheet5 = some 2 :=
  (c5_header_discovery exSheet5 2).2 (by decide) (by decide) (by decide)

/-! ### Claim 8: failure report and unmatched sheets -/

/-- Claim C8: the diagnostic list always carries exactly one entry per
sheet in order; when no sheet matches at any offset the run is the terminal
failure carrying that full list; and a sheet with no valid offset yields
exactly one unmatched diagnostic (holding the columns visible at offset 0,
or nothing readable) in its position, contributes zero records, and leaves
the batches of the other sheets unchanged. -/
theorem c8_failure_diagnostics (sheets pre post : List Sheet) (s : Sheet) :
    (sheetDiags sheets).length = sheets.length ∧
    ((∀ sh ∈ sheets, findHeaderOffset sh = none) →
      clean_and_process sheets = .error (sheetDiags sheets)) ∧
    (findHeaderOffset s = none →
      sheetDiags (pre ++ s :: post) =
        sheetDiags pre ++ Diag.unmatched (observedCols s) :: sheetDiags post ∧
      sheetBatches (pre ++ s :: post) = sheetBatches (pre ++ post)) := by
  refine ⟨List.length_map _ _, ?_, ?_⟩
  · intro hall
    have hb : sheetBatches sheets = [] := by
      unfold sheetBatches
      rw [List.filterMap_eq_nil_iff]
      intro sh hsh
      simp [processSheet, hall sh hsh]
    unfold clean_and_process
    rw [hb]
    simp
  · intro hnone
    constructor
    · unfold sheetDiags
      rw [List.map_append, List.map_cons]
      simp [processSheet, hnone]
    · unfold sheetBatches
      rw [List.filterMap_append, List.filterMap_append, List.filterMap_cons]
      simp [processSheet, hnone]

/-- Witness sheet for C8: a cover sheet with no recognizable columns. -/
def junkSheet : Sheet := [[some "说明页", some "x"]]

/-- Witness for C8: the one-junk-sheet workbook fails with its full
diagnostic list, the diagnostic is unmatched in place, and removing the
sheet leaves the (empty) batches unchanged. -/
theorem c8_failure_diagnostics_witness :
    clean_and_process [junkSheet] = .error (sheetDiags [junkSheet]) ∧
    sheetDiags ([] ++ junkSheet :: []) =
      sheetDiags [] ++ Diag.unmatched (observedCols junkSheet) :: sheetDiags [] ∧
    sheetBatches ([] ++ junkSheet :: []) = sheetBatches ([] ++ []) := by
  have h := c8_failure_diagnostics [junkSheet] [] [] junkSheet
  exact ⟨h.2.1 (by decide), (h.2.2 (by decide)).1, (h.2.2 (by decide)).2⟩

/-! ### Claim 9: dropping of rows by security code -/

/-- Counterexample sheet for C9: the data row's code cell holds a single
space.  It is not missing, so the `dropna` keeps the row, and the code then
normalizes to the empty string. -/
def wsSheet : Sheet :=
  [[some "证券代码", some "成交数量"], [some " ", some "100"]]

/-- Counterexample for C9 as stated: the merged dataset produced from
`wsSheet` holds a materialized record whose security code is the empty
string, refuting the claim that no merged record has an empty code. -/
theorem c9_code_drop_counterexample :
    clean_and_process [wsSheet] =
      .ok [{ code := "", qty := some "100", amount := none, price := none,
             date := none, direction := none }] ∧
    ¬ (∀ out, clean_and_process [wsSheet] = .ok out → ∀ r ∈ out, r.code ≠ "") := by
  have heq : clean_and_process [wsSheet] =
      .ok [{ code := "", qty := some "100", amount := none, price := none,
             date := none, direction := none }] := by
    with_unfolding_all rfl
  refine ⟨heq, ?_⟩
  intro hall
  exact hall _ heq _ (List.mem_singleton_self _) rfl

/-- Claim C9 (amended): during ingestion of a matched sheet exactly the rows
whose security-code cell is missing are dropped; every merged record stems
from a data row of a matched sheet with a present (possibly whitespace-only)
code cell and carries that cell's normalization — which can be the empty
string, so an empty normalized code can be materialized. -/
theorem c9_code_drop (hdr row : SheetRow) (sheets : List Sheet)
    (out : List IngestRec) :
    ((rowToRec hdr row).isSome ↔
      (getCell row (colIdx hdr "证券代码")).isSome) ∧
    (clean_and_process sheets = .ok out →
      ∀ r ∈ out, ∃ sh ∈ sheets, ∃ k, findHeaderOffset sh = some k ∧
        ∃ q ∈ extractRecords sh k, r = finalizeRec q ∧
          r.code = normalize_stock_code q.code) := by
  constructor
  · unfold rowToRec
    cases h : getCell row (colIdx hdr "证券代码") <;> simp [h]
  · intro hok r hr
    unfold clean_and_process at hok
    split at hok
    · exact absurd hok (by simp)
    · have hout : (sheetBatches sheets).flatten.map finalizeRec = out := by
        injection hok
      rw [← hout] at hr
      obtain ⟨q, hq, rfl⟩ := List.mem_map.mp hr
      obtain ⟨b, hb1, hb2⟩ := List.mem_flatten.mp hq
      obtain ⟨sh, hsh, hps⟩ := List.mem_filterMap.mp hb1
      unfold processSheet at hps
      cases hfo : findHeaderOffset sh with
      | none =>
        rw [hfo] at hps
        simp at hps
      | some k =>
        rw [hfo] at hps
        simp only [Option.some.injEq] at hps
        subst hps
        exact ⟨sh, hsh, k, hfo, q, hb2, rfl, rfl⟩

/-- Witness for C9: on the whitespace-code sheet, the merged record is the
normalization of the present code cell of its data row. -/
theorem c9_code_drop_witness :
    ∃ sh ∈ [wsSheet], ∃ k, findHeaderOffset sh = some k ∧
      ∃ q ∈ extractRecords sh k,
        ({ code := "", qty := some "100", amount := none, price := none,
           date := none, direction := none } : IngestRec) = finalizeRec q ∧
        ({ code := "", qty := some "100", amount := none, price := none,
           date := none, direction := none } : IngestRec).code =
          normalize_stock_code q.code :=
  (c9_code_drop [] [] [wsSheet]
      [{ code := "", qty := some "100", amount := none, price := none,
         date := none, direction := none }]).2
    (by with_unfolding_all rfl) _ (List.mem_singleton_self _)

end TradeLedger
